import Mathlib

/-!
Shallow embedding of the interview-ready extension's synchronization and
readiness core, translated from the TypeScript sources:

  - `src/sync/scan-strategy.ts`   (TargetedStrategy, EagerStrategy)
  - `src/sync/problem-sync.ts`    (buildSubmissionCache, makeEmptyCache,
                                   updateProblemsFromLeetCode)
  - `src/sync/submission-sync.ts` (validateChronologicalOrder, incrementalSync)
  - `src/api/leetcode-graphql.ts` (fetchLatestAcceptedForProblem)
  - `src/readiness-logic/readiness.ts` (buildAcceptedSet, getReadinessData)

Modelling conventions:
  - JavaScript objects used as string-keyed records become association
    lists `List (String × β)` with first-match lookup (`alookup`) and
    in-place upsert (`aset`); JS object keys are unique, so first-match
    lookup agrees with JS semantics.
  - JS numbers are modelled as `ℚ` where fractional arithmetic occurs
    (acceptance rates, readiness points) and as `Int`/`Nat` where the
    code treats them as integral (Unix timestamps, counters).
  - `Date.now()` is modelled by an explicit `now : Nat` parameter; the
    code's successive `Date.now()` calls within one run are collapsed to
    this single value.
  - Network calls become oracle parameters: the per-problem submission
    lookup is a function from slug to `Except String ProblemSolveResult`,
    the paginated submission feed a function from page index to response.
  - `throw` / rejected promises become `Except String` results; storage
    writes (`setStorage` on the submission-cache key) are logged in an
    explicit write list so frame conditions can be stated.
  - An `AbortSignal` is modelled by `abortAt : Option Nat`: the signal is
    observed as aborted at every between-item check from item index
    `abortAt` on (monotone, as real abort signals are).
-/

-- ─── Association-list helpers (JS record semantics) ─────────────────

/-- First-match lookup in an association list (JS property read). -/
def alookup {β : Type} : List (String × β) → String → Option β
  | [], _ => none
  | (k, v) :: rest, s => if k = s then some v else alookup rest s

/-- Upsert in an association list (JS property assignment): replace the
value in place when the key is present, append otherwise. -/
def aset {β : Type} : List (String × β) → String → β → List (String × β)
  | [], k, v => [(k, v)]
  | (k', v') :: rest, k, v =>
    if k' = k then (k, v) :: aset rest k v else (k', v') :: aset rest k v

-- ─── Data model (src/types/models.ts) ───────────────────────────────

/-- Topic tag attached to a problem. -/
structure TopicTag where
  name : String
  id : String
  slug : String
  deriving DecidableEq, Repr

/-- A LeetCode problem as used by the sync and readiness logic.
Fields of the source interface unused by the modelled functions
(`title`, `frontendQuestionId`, `isFavor`, `hasSolution`,
`hasVideoSolution`) are omitted. `status` is `some "ac"`,
`some "notac"`, or `none` (never attempted). -/
structure Problem where
  acRate : ℚ
  difficulty : String
  paidOnly : Bool
  status : Option String
  titleSlug : String
  topicTags : List TopicTag
  deriving DecidableEq, Repr

/-- Cache lifecycle status. -/
inductive CacheStatus where
  | empty
  | building
  | valid
  | stale
  deriving DecidableEq, Repr

/-- Per-problem entry in the submission cache. -/
structure SubmissionCacheEntry where
  solved : Bool
  latestAcceptedTimestamp : Option Int
  checkedAt : Nat
  deriving DecidableEq, Repr

/-- Top-level submission cache stored in `submissionCacheKey`. -/
structure SubmissionCacheData where
  entries : List (String × SubmissionCacheEntry)
  cacheStatus : CacheStatus
  lastFullScanAt : Option Nat
  lastIncrementalAt : Option Nat
  lastError : Option String
  deriving DecidableEq, Repr

/-- An accepted submission from the recent-accepted feed.  The source
stores `timestamp` as a numeric string and converts it with `Number(·)`;
it is modelled here as the parsed integer. The `id` and `title` fields
are unused by the modelled functions and omitted. -/
structure AcceptedSubmission where
  titleSlug : String
  timestamp : Int
  deriving DecidableEq, Repr

-- ─── Scan strategies (src/sync/scan-strategy.ts) ────────────────────

/-- Result of `ScanStrategy.partition`. -/
structure PartitionResult where
  toQuery : List Problem
  toMarkUnsolved : List Problem
  deriving DecidableEq, Repr

/-- A scan strategy: a name and a pure partition function. -/
structure ScanStrategy where
  name : String
  partition : List Problem → List (String × SubmissionCacheEntry) → PartitionResult

/-- Loop body of `TargetedStrategy.partition`: skip cached problems;
`status === 'ac'` goes to `toQuery`, everything else to `toMarkUnsolved`. -/
def targetedPartition : List Problem → List (String × SubmissionCacheEntry) → PartitionResult
  | [], _ => ⟨[], []⟩
  | p :: ps, existingCache =>
    let rest := targetedPartition ps existingCache
    if (alookup existingCache p.titleSlug).isSome then rest
    else if p.status = some "ac" then ⟨p :: rest.toQuery, rest.toMarkUnsolved⟩
    else ⟨rest.toQuery, p :: rest.toMarkUnsolved⟩

/-- Loop body of `EagerStrategy.partition`: skip cached problems; every
problem with `status !== null` goes to `toQuery`; `toMarkUnsolved` is
returned empty. -/
def eagerPartition : List Problem → List (String × SubmissionCacheEntry) → PartitionResult
  | [], _ => ⟨[], []⟩
  | p :: ps, existingCache =>
    let rest := eagerPartition ps existingCache
    if (alookup existingCache p.titleSlug).isSome then rest
    else if p.status ≠ none then ⟨p :: rest.toQuery, rest.toMarkUnsolved⟩
    else rest

/-- The Targeted strategy object. -/
def TargetedStrategy : ScanStrategy :=
  ⟨"targeted", targetedPartition⟩

/-- The Eager strategy object. -/
def EagerStrategy : ScanStrategy :=
  ⟨"eager", eagerPartition⟩

-- ─── Chronology validation (src/sync/submission-sync.ts) ────────────

/-- Inner loop of `validateChronologicalOrder`: carries the previous
timestamp (initially `null`) and raises when a current timestamp is
strictly greater than the previous one. -/
def validateChronoGo : Option Int → List AcceptedSubmission → Except String Unit
  | _, [] => .ok ()
  | prev, s :: rest =>
    match prev with
    | none => validateChronoGo (some s.timestamp) rest
    | some p =>
      if s.timestamp > p then .error "Chronology violation"
      else validateChronoGo (some s.timestamp) rest

/-- `validateChronologicalOrder`: throws a chronology error when some
submission's timestamp is strictly greater than its predecessor's.
(The source's non-array and unparsable-timestamp errors cannot arise in
the typed embedding.) -/
def validateChronologicalOrder (submissions : List AcceptedSubmission) : Except String Unit :=
  validateChronoGo none submissions

-- ─── Incremental sync (src/sync/submission-sync.ts) ─────────────────

/-- Result of an incremental sync pass. -/
structure IncrementalSyncResult where
  gapDetected : Bool
  newCount : Nat
  cache : SubmissionCacheData
  deriving DecidableEq, Repr

/-- `makeEmptyCache` from the builder module. -/
def makeEmptyCache : SubmissionCacheData :=
  ⟨[], .empty, none, none, none⟩

/-- Reconciliation loop of `incrementalSync`: walks `recent`, carrying
the (mutated) entry map, the `overlapFound` flag and `newCount`. -/
def incrementalLoop (now : Nat) :
    List AcceptedSubmission → List (String × SubmissionCacheEntry) → Bool → Nat →
    List (String × SubmissionCacheEntry) × Bool × Nat
  | [], entries, overlapFound, newCount => (entries, overlapFound, newCount)
  | sub :: rest, entries, overlapFound, newCount =>
    let ts := sub.timestamp
    match alookup entries sub.titleSlug with
    | some existing =>
      if existing.solved then
        -- overlap confirmed; update only when strictly newer
        match existing.latestAcceptedTimestamp with
        | some stored =>
          if ts > stored then
            incrementalLoop now rest
              (aset entries sub.titleSlug ⟨true, some ts, now⟩) true (newCount + 1)
          else
            incrementalLoop now rest entries true newCount
        | none => incrementalLoop now rest entries true newCount
      else
        incrementalLoop now rest
          (aset entries sub.titleSlug ⟨true, some ts, now⟩) overlapFound (newCount + 1)
    | none =>
      incrementalLoop now rest
        (aset entries sub.titleSlug ⟨true, some ts, now⟩) overlapFound (newCount + 1)

/-- `incrementalSync`: reconcile the recent-accepted feed with the
existing cache.  The remote fetch is modelled by passing the fetched
`recent` list directly; `Date.now()` is the `now` parameter.  The
storage write equals the returned cache. -/
def incrementalSync (username : String) (recent : List AcceptedSubmission)
    (existingCache : Option SubmissionCacheData) (now : Nat) :
    Except String IncrementalSyncResult :=
  let cache := existingCache.getD makeEmptyCache
  if username = "" then .ok ⟨false, 0, cache⟩
  else if recent.length = 0 then .ok ⟨false, 0, cache⟩
  else
    match validateChronologicalOrder recent with
    | .error e => .error e
    | .ok _ =>
      let cacheIsEmpty := cache.entries.isEmpty
      let result := incrementalLoop now recent cache.entries false 0
      let gapDetected := !cacheIsEmpty && !result.2.1
      let updatedCache : SubmissionCacheData :=
        ⟨result.1,
         if gapDetected then .stale
         else if cache.cacheStatus = .empty then .empty
         else cache.cacheStatus,
         cache.lastFullScanAt,
         some now,
         none⟩
      .ok ⟨gapDetected, result.2.2, updatedCache⟩

-- ─── Per-problem lookup (src/api/leetcode-graphql.ts) ───────────────

/-- Result of checking a single problem's submission history. -/
structure ProblemSolveResult where
  solved : Bool
  latestAcceptedTimestamp : Option Int
  deriving DecidableEq, Repr

/-- One submission in a `questionSubmissionList` page. -/
structure PageSubmission where
  timestamp : Int
  statusDisplay : String
  deriving DecidableEq, Repr

/-- One page of the `questionSubmissionList` response.  A `none` page in
the oracle models a null `questionSubmissionList` field. -/
structure SubmissionPage where
  lastKey : Option String
  hasNext : Bool
  submissions : List PageSubmission
  deriving DecidableEq, Repr

/-- First submission with `statusDisplay === 'Accepted'` in a page. -/
def firstAccepted : List PageSubmission → Option Int
  | [] => none
  | sub :: rest =>
    if sub.statusDisplay = "Accepted" then some sub.timestamp
    else firstAccepted rest

/-- Paging loop of `fetchLatestAcceptedForProblem`, recursing on the
remaining page budget.  `pages` is the remote oracle, indexed by page
number. -/
def fetchLatestGo (pages : Nat → Option SubmissionPage) (page : Nat) :
    Nat → ProblemSolveResult
  | 0 => ⟨false, none⟩
  | fuel + 1 =>
    match pages page with
    | none => ⟨false, none⟩
    | some qsl =>
      if qsl.submissions.isEmpty then ⟨false, none⟩
      else
        match firstAccepted qsl.submissions with
        | some ts => ⟨true, some ts⟩
        | none =>
          if qsl.hasNext then fetchLatestGo pages (page + 1) fuel
          else ⟨false, none⟩

/-- `fetchLatestAcceptedForProblem`: scan up to `maxPages` pages of the
most-recent-first submission history for the first accepted entry. -/
def fetchLatestAcceptedForProblem (pages : Nat → Option SubmissionPage)
    (maxPages : Nat := 3) : ProblemSolveResult :=
  fetchLatestGo pages 0 maxPages

/-- The window of submissions the paging loop can inspect: page
contents concatenated in order, cut off at a missing or empty page, at
a page with `hasNext = false`, or at the page budget. -/
def submissionWindow (pages : Nat → Option SubmissionPage) (page : Nat) :
    Nat → List PageSubmission
  | 0 => []
  | fuel + 1 =>
    match pages page with
    | none => []
    | some qsl =>
      if qsl.submissions.isEmpty then []
      else if qsl.hasNext then
        qsl.submissions ++ submissionWindow pages (page + 1) fuel
      else qsl.submissions

-- ─── Submission cache builder (src/sync/problem-sync.ts) ────────────

/-- Whether the abort signal is observed as aborted at the between-item
check for item index `i`. -/
def abortedAt (abortAt : Option Nat) (i : Nat) : Bool :=
  match abortAt with
  | some k => k ≤ i
  | none => false

/-- Result of a builder run: the returned cache and the ordered list of
submission-cache storage writes the run performed. -/
structure BuildResult where
  cache : SubmissionCacheData
  writes : List SubmissionCacheData
  deriving DecidableEq, Repr

/-- Checkpoint interval of the builder. -/
def CHECKPOINT_INTERVAL : Nat := 10

/-- Sequential scan loop of `buildSubmissionCache` over `toQuery`,
starting at item index `i`.  `fetchResult` is the remote oracle for
`fetchLatestAcceptedForProblem`; a thrown per-item error is the
`.error` case.  `base` is the `building`-stamped cache used for
checkpoint writes.  Returns the accumulated entries and checkpoint
writes. -/
def scanLoop (fetchResult : String → Except String ProblemSolveResult)
    (abortAt : Option Nat) (now : Nat) (base : SubmissionCacheData) :
    List Problem → Nat → List (String × SubmissionCacheEntry) →
    List SubmissionCacheData →
    List (String × SubmissionCacheEntry) × List SubmissionCacheData
  | [], _, entries, writes => (entries, writes)
  | p :: ps, i, entries, writes =>
    if abortedAt abortAt i then (entries, writes)
    else
      let entry : SubmissionCacheEntry :=
        match fetchResult p.titleSlug with
        | .ok r => ⟨r.solved, r.latestAcceptedTimestamp, now⟩
        | .error _ => ⟨false, none, now⟩
      let entries' := aset entries p.titleSlug entry
      let writes' :=
        if (i + 1) % CHECKPOINT_INTERVAL = 0 then
          writes ++ [{ base with entries := entries' }]
        else writes
      scanLoop fetchResult abortAt now base ps (i + 1) entries' writes'

/-- `buildSubmissionCache`: build or extend the submission cache.
Remote calls, `Date.now()` and the abort signal are modelled as in the
header comment; `writes` records every `setStorage` of the
submission-cache key, in order (progress-bar writes to a separate key
are not modelled). -/
def buildSubmissionCache (problems : List Problem) (strategy : ScanStrategy)
    (existingCache : SubmissionCacheData)
    (fetchResult : String → Except String ProblemSolveResult)
    (abortAt : Option Nat) (now : Nat) : BuildResult :=
  let entries0 := existingCache.entries
  let part := strategy.partition problems entries0
  if part.toQuery.isEmpty && part.toMarkUnsolved.isEmpty then
    ⟨{ existingCache with
        cacheStatus := .valid
        lastFullScanAt := some now
        lastError := none }, []⟩
  else
    let entries1 := part.toMarkUnsolved.foldl
      (fun m p => aset m p.titleSlug ⟨false, none, now⟩) entries0
    if part.toQuery.isEmpty then
      let completedCache : SubmissionCacheData :=
        ⟨entries1, .valid, some now, existingCache.lastIncrementalAt, none⟩
      ⟨completedCache, [completedCache]⟩
    else
      let cacheInProgress : SubmissionCacheData :=
        ⟨entries1, .building, existingCache.lastFullScanAt,
         existingCache.lastIncrementalAt, none⟩
      let scanned := scanLoop fetchResult abortAt now cacheInProgress
        part.toQuery 0 entries1 []
      let finalAborted := abortedAt abortAt part.toQuery.length
      let completedCache : SubmissionCacheData :=
        ⟨scanned.1,
         if finalAborted then existingCache.cacheStatus else .valid,
         if finalAborted then existingCache.lastFullScanAt else some now,
         existingCache.lastIncrementalAt,
         none⟩
      ⟨completedCache, cacheInProgress :: scanned.2 ++ [completedCache]⟩

-- ─── Catalog synchronizer (src/sync/problem-sync.ts, part: updateProblemsFromLeetCode) ─

/-- The stored problem catalog: the `problemsetQuestionList` payload. -/
structure CatalogPayload where
  total : Nat
  questions : List Problem
  deriving DecidableEq, Repr

/-- Problem data stored under the problems key.  Every field the source
writes is modelled; absent JS fields are `none`. -/
structure ProblemData where
  data : Option CatalogPayload
  source : Option String
  fetchStartedAt : Option Nat
  fetchCompletedAt : Option Nat
  lastAttemptAt : Option Nat
  lastError : Option String
  timeStamp : Option Nat
  usingCache : Option Bool
  deriving DecidableEq, Repr

/-- The all-fields-absent record a spread of `undefined` produces. -/
def emptyProblemData : ProblemData :=
  ⟨none, none, none, none, none, none, none, none⟩

/-- The default empty catalog `{ total: 0, questions: [] }`. -/
def emptyCatalog : CatalogPayload := ⟨0, []⟩

/-- Result object of `updateProblemsFromLeetCode`. -/
structure UpdateProblemsResult where
  skipped : Bool
  count : Option Nat
  error : Option String
  usingCache : Option Bool
  deriving DecidableEq, Repr

/-- TTL guard of `updateProblemsFromLeetCode`:
`existing?.fetchCompletedAt && now - existing.fetchCompletedAt < fetchTtlMs`
(a completion stamp of 0 is falsy in the source). -/
def ttlStillValid (existing : Option ProblemData) (fetchTtlMs : Int) (now : Nat) : Bool :=
  match existing with
  | some e =>
    match e.fetchCompletedAt with
    | some t => t ≠ 0 && (now : Int) - t < fetchTtlMs
    | none => false
  | none => false

/-- `updateProblemsFromLeetCode`: refresh the catalog under a TTL and
an in-flight guard.  The remote fetch is the `fetchOutcome` oracle;
`completedAt` models the second `Date.now()` taken after a successful
fetch.  Returns the result object and the ordered list of problems-key
storage writes (the last write is the persisted state). -/
def updateProblemsFromLeetCode (inFlight : Bool) (existing : Option ProblemData)
    (fetchTtlMs : Int) (now completedAt : Nat)
    (fetchOutcome : Except String CatalogPayload) :
    UpdateProblemsResult × List ProblemData :=
  if inFlight then (⟨true, none, none, none⟩, [])
  else
    if ttlStillValid existing fetchTtlMs now then (⟨true, none, none, none⟩, [])
    else
      let base := existing.getD emptyProblemData
      let semaphoreWrite : ProblemData :=
        { base with
            data := some ((existing.bind (·.data)).getD emptyCatalog)
            fetchStartedAt := some now
            lastAttemptAt := some now
            lastError := none
            usingCache := some false }
      match fetchOutcome with
      | .ok payload =>
        let successWrite : ProblemData :=
          ⟨some ⟨payload.total, payload.questions⟩,
           some "leetcode",
           some now,
           some completedAt,
           some now,
           none,
           some completedAt,
           some false⟩
        (⟨false, some payload.questions.length, none, none⟩,
         [semaphoreWrite, successWrite])
      | .error message =>
        let failureWrite : ProblemData :=
          { base with
              data := some ((existing.bind (·.data)).getD emptyCatalog)
              fetchStartedAt := some 0
              lastAttemptAt := some now
              lastError := some message
              timeStamp := some now
              usingCache := some true }
        (⟨false, none, some message, some true⟩,
         [semaphoreWrite, failureWrite])

-- ─── Readiness scorer (src/readiness-logic/readiness.ts) ────────────

/-- Tracked topics (`TARGET_TOPICS`). -/
def TARGET_TOPICS : List String :=
  ["hash-table", "string", "linked-list", "array",
   "depth-first-search", "breadth-first-search", "binary-search",
   "dynamic-programming", "sorting", "heap-priority-queue", "queue"]

/-- Per-topic target counts (`TARGET_TOPIC_COUNTS`); the record is only
ever indexed at tracked topics. -/
def TARGET_TOPIC_COUNTS (topic : String) : ℚ :=
  if topic = "hash-table" then 20
  else if topic = "string" then 20
  else if topic = "linked-list" then 12
  else if topic = "array" then 24
  else if topic = "depth-first-search" then 12
  else if topic = "breadth-first-search" then 10
  else if topic = "binary-search" then 7
  else if topic = "dynamic-programming" then 14
  else if topic = "sorting" then 10
  else if topic = "heap-priority-queue" then 6
  else if topic = "queue" then 5
  else 0

/-- `UPPER_AC_RATE`. -/
def UPPER_AC_RATE : ℚ := 60

/-- `LOWER_AC_RATE`. -/
def LOWER_AC_RATE : ℚ := 40

/-- Readiness status per topic. -/
inductive ReadinessStatus where
  | ready
  | almost
  | notReady
  deriving DecidableEq, Repr

/-- Inclusive date-range bounds in Unix seconds. -/
structure DateRange where
  startSec : Int
  endSec : Int
  deriving DecidableEq, Repr

/-- `buildAcceptedSet`: the set (as the list of added slugs) of accepted
problem slugs derived from the cache, optionally bounded by a date
range. -/
def buildAcceptedSet (cache : Option SubmissionCacheData)
    (dateRange : Option DateRange) : List String :=
  match cache with
  | none => []
  | some c =>
    c.entries.filterMap fun pr =>
      if !pr.2.solved then none
      else
        match dateRange with
        | none => some pr.1
        | some r =>
          match pr.2.latestAcceptedTimestamp with
          | none => none
          | some ts =>
            if ts < r.startSec || ts > r.endSec then none else some pr.1

/-- `isSolved`: cache-derived accepted set first, catalog `status`
fallback only when no date filter is active and no cache entry exists. -/
def isSolved (slug : String) (status : Option String) (accepted : List String)
    (allowStatusFallback : Bool)
    (cacheEntries : List (String × SubmissionCacheEntry)) : Bool :=
  accepted.contains slug ||
    (allowStatusFallback && decide (status = some "ac") &&
      !(alookup cacheEntries slug).isSome)

/-- `solvedPoints`: difficulty- and acceptance-rate-weighted points. -/
def solvedPoints (q : Problem) : ℚ :=
  if q.difficulty = "Easy" then 0.4
  else if q.difficulty = "Hard" then 2
  else if q.acRate ≥ UPPER_AC_RATE then 0.75
  else if q.acRate > LOWER_AC_RATE then 1
  else 1.5

/-- Inner tag loop of the accumulation in `getReadinessData`:
`topicPoints[tag.slug] = (topicPoints[tag.slug] ?? 0) + pts`, with the
points record modelled as a total function defaulting to 0. -/
def addTagPoints (pts : ℚ) : List TopicTag → (String → ℚ) → (String → ℚ)
  | [], acc => acc
  | tag :: rest, acc =>
    addTagPoints pts rest
      (fun t => if t = tag.slug then acc tag.slug + pts else acc t)

/-- Outer question loop of the accumulation in `getReadinessData`. -/
def topicPointsFold (accepted : List String) (allowFallback : Bool)
    (entries : List (String × SubmissionCacheEntry)) :
    List Problem → (String → ℚ) → (String → ℚ)
  | [], acc => acc
  | q :: qs, acc =>
    topicPointsFold accepted allowFallback entries qs
      (if isSolved q.titleSlug q.status accepted allowFallback entries then
        addTagPoints (solvedPoints q) q.topicTags acc
      else acc)

/-- `getReadinessData`: per tracked topic, normalized points, percentage
and status, as an association list in `TARGET_TOPICS` order. -/
def getReadinessData (allProblems : CatalogPayload)
    (submissionCache : Option SubmissionCacheData)
    (dateRange : Option DateRange) : List (String × ReadinessStatus × ℚ) :=
  let accepted := buildAcceptedSet submissionCache dateRange
  let allowFallback := dateRange.isNone
  let entries := (submissionCache.map (·.entries)).getD []
  let points :=
    topicPointsFold accepted allowFallback entries allProblems.questions (fun _ => 0)
  TARGET_TOPICS.map fun topic =>
    let normalized := points topic / TARGET_TOPIC_COUNTS topic
    let pct := normalized * 100
    let status : ReadinessStatus :=
      if normalized ≥ 1 then .ready
      else if normalized > 0.7 then .almost
      else .notReady
    (topic, status, pct)

-- ─── Reference definitions taken from the spec's words ──────────────

/-- Reference definition from the spec: an item's slug is in the
cache-derived accepted set — a solved entry exists for it, and when a
date range is active its timestamp is non-null and inside the range. -/
def specIsAccepted (cache : Option SubmissionCacheData)
    (dateRange : Option DateRange) (slug : String) : Bool :=
  match cache with
  | none => false
  | some c =>
    c.entries.any fun pr =>
      pr.1 == slug && pr.2.solved &&
      (match dateRange with
       | none => true
       | some r =>
         match pr.2.latestAcceptedTimestamp with
         | none => false
         | some ts => decide (r.startSec ≤ ts) && decide (ts ≤ r.endSec))

/-- Reference definition from the spec: a cache entry exists for the
slug. -/
def specHasEntry (cache : Option SubmissionCacheData) (slug : String) : Bool :=
  match cache with
  | none => false
  | some c => c.entries.any fun pr => pr.1 == slug

/-- Reference definition from the spec: an item counts as solved iff it
is in the accepted set, or — only when no date range is active and no
cache entry exists for it — the catalog's per-user status is accepted. -/
def specIsSolved (cache : Option SubmissionCacheData)
    (dateRange : Option DateRange) (q : Problem) : Bool :=
  specIsAccepted cache dateRange q.titleSlug ||
    (dateRange.isNone && decide (q.status = some "ac") &&
      !specHasEntry cache q.titleSlug)

/-- Reference definition from the spec: weighted points — Easy 0.4,
Hard 2.0, Medium 0.75 / 1.0 / 1.5 by acceptance-rate band relative to
the upper/lower thresholds. -/
def specPoints (q : Problem) : ℚ :=
  if q.difficulty = "Easy" then 0.4
  else if q.difficulty = "Hard" then 2
  else if UPPER_AC_RATE ≤ q.acRate then 0.75
  else if LOWER_AC_RATE < q.acRate then 1
  else 1.5

/-- Reference definition from the spec: a topic's total points — every
solved item tagging the topic contributes its weighted points. -/
def specTopicPoints (allProblems : CatalogPayload)
    (cache : Option SubmissionCacheData) (dateRange : Option DateRange)
    (topic : String) : ℚ :=
  ((allProblems.questions.filter fun q =>
      specIsSolved cache dateRange q &&
        q.topicTags.any fun tag => tag.slug == topic).map specPoints).sum

/-- Reference definition from the spec: per tracked topic,
`normalized = totalPoints / targetCount`, `percentage = 100 * normalized`,
status ready iff `normalized >= 1.0`, almost iff `> 0.7`, else
notReady; every tracked topic appears. -/
def getReadinessSpec (allProblems : CatalogPayload)
    (cache : Option SubmissionCacheData) (dateRange : Option DateRange) :
    List (String × ReadinessStatus × ℚ) :=
  TARGET_TOPICS.map fun topic =>
    let normalized :=
      specTopicPoints allProblems cache dateRange topic / TARGET_TOPIC_COUNTS topic
    (topic,
     if 1 ≤ normalized then .ready
     else if 0.7 < normalized then .almost
     else .notReady,
     100 * normalized)

-- ─── Claim-side order predicates and hypotheses ─────────────────────

/-- A timestamp list is strictly descending: each element is strictly
smaller than its predecessor. -/
def strictlyDescending : List Int → Bool
  | [] => true
  | [_] => true
  | a :: b :: rest => decide (b < a) && strictlyDescending (b :: rest)

/-- A timestamp list is weakly descending (non-increasing): each
element is at most its predecessor. -/
def weaklyDescending : List Int → Bool
  | [] => true
  | [_] => true
  | a :: b :: rest => decide (b ≤ a) && weaklyDescending (b :: rest)

/-- A recent submission is covered by the cache: a solved entry exists
for its slug whose stored timestamp is present and at least the
submission's timestamp. -/
def coveredBy (entries : List (String × SubmissionCacheEntry))
    (s : AcceptedSubmission) : Bool :=
  match alookup entries s.titleSlug with
  | some e =>
    e.solved &&
      (match e.latestAcceptedTimestamp with
       | some t => decide (s.timestamp ≤ t)
       | none => false)
  | none => false

/-- The entry the builder's scan loop writes for one queried problem:
the lookup result on success, the unsolved default on failure. -/
def scanEntry (fetchResult : String → Except String ProblemSolveResult)
    (now : Nat) (p : Problem) : SubmissionCacheEntry :=
  match fetchResult p.titleSlug with
  | .ok r => ⟨r.solved, r.latestAcceptedTimestamp, now⟩
  | .error _ => ⟨false, none, now⟩

/-- Example remote history: one page `[Wrong Answer@200, Accepted@100]`,
newest first. -/
def historyWrongThenAccepted : Nat → Option SubmissionPage := fun p =>
  if p = 0 then some ⟨none, false, [⟨200, "Wrong Answer"⟩, ⟨100, "Accepted"⟩]⟩
  else none

/-- Example remote history: one page with only non-accepted outcomes. -/
def historyAllRejected : Nat → Option SubmissionPage := fun p =>
  if p = 0 then some ⟨none, false, [⟨200, "Wrong Answer"⟩, ⟨150, "Time Limit Exceeded"⟩]⟩
  else none

/-- Example remote history: the item has no submissions at all. -/
def historyNoSubmissions : Nat → Option SubmissionPage := fun _ =>
  some ⟨none, false, []⟩

-- ─── Association-list lemmas ────────────────────────────────────────

theorem alookup_aset {β : Type} (m : List (String × β)) (k : String) (v : β)
    (s : String) :
    alookup (aset m k v) s = if k = s then some v else alookup m s := by
  induction m with
  | nil =>
    by_cases h : k = s <;> simp [aset, alookup, h]
  | cons hd tl ih =>
    obtain ⟨k', v'⟩ := hd
    by_cases h1 : k' = k
    · subst h1
      by_cases h2 : k' = s <;> simp [aset, alookup, h2, ih]
    · by_cases h2 : k' = s
      · subst h2
        have h3 : ¬ k = k' := fun h => h1 h.symm
        simp [aset, alookup, h1, h3]
      · by_cases h3 : k = s
        · subst h3
          simp [aset, alookup, h1, h2, ih]
        · simp [aset, alookup, h1, h2, h3, ih]

theorem alookup_isSome_eq_any {β : Type} (m : List (String × β)) (s : String) :
    (alookup m s).isSome = m.any fun pr => pr.1 == s := by
  induction m with
  | nil => simp [alookup]
  | cons hd tl ih =>
    obtain ⟨k, v⟩ := hd
    by_cases h : k = s <;> simp [alookup, h, ih]

-- ─── C1 ─────────────────────────────────────────────────────────────

/-- C1: evaluation at the failing input.  With a non-empty cache whose
status is `stale` and a recent batch overlapping a solved entry, the
claim (and the spec, and `incrementalSync`'s own doc comment) require
the returned status to be set to `valid`; the code returns the prior
status `stale` unchanged — its status expression's final branch yields
`cache.cacheStatus`, never `valid`. -/
theorem incrementalSync_overlap_keeps_stale :
    incrementalSync "tester" [⟨"two-sum", 500⟩]
        (some ⟨[("two-sum", ⟨true, some 500, 0⟩)], .stale, none, none, none⟩) 1000 =
      .ok ⟨false, 0,
        ⟨[("two-sum", ⟨true, some 500, 0⟩)], .stale, none, some 1000, none⟩⟩ := by
  rfl

-- ─── C5 ─────────────────────────────────────────────────────────────

/-- C5: counterexample.  Under the Eager strategy, an uncached
never-attempted item (`status === null`) lands in neither list — in
particular not in `toMarkUnsolved` as the claim states. -/
theorem eager_drops_never_attempted :
    EagerStrategy.partition [⟨50, "Medium", false, none, "p1", []⟩] [] =
      ⟨[], []⟩ := by
  decide

/-- C5 (amended): partition is deterministic and side-effect free and
skips cached items; under Targeted, exactly the `status === 'ac'` items
go to `toQuery` and all other uncached items to `toMarkUnsolved`; under
Eager, both accepted and attempted-not-accepted items go to `toQuery`
while never-attempted items are dropped from both lists
(`toMarkUnsolved` is always empty). -/
theorem partition_characterization (problems : List Problem)
    (existingEntries : List (String × SubmissionCacheEntry)) :
    (TargetedStrategy.partition problems existingEntries).toQuery =
      problems.filter (fun p =>
        !(alookup existingEntries p.titleSlug).isSome &&
          decide (p.status = some "ac")) ∧
    (TargetedStrategy.partition problems existingEntries).toMarkUnsolved =
      problems.filter (fun p =>
        !(alookup existingEntries p.titleSlug).isSome &&
          !decide (p.status = some "ac")) ∧
    (EagerStrategy.partition problems existingEntries).toQuery =
      problems.filter (fun p =>
        !(alookup existingEntries p.titleSlug).isSome &&
          !decide (p.status = none)) ∧
    (EagerStrategy.partition problems existingEntries).toMarkUnsolved = [] := by
  refine ⟨?_, ?_, ?_, ?_⟩ <;>
  · show _
    induction problems with
    | nil => simp [TargetedStrategy, EagerStrategy, targetedPartition, eagerPartition]
    | cons p ps ih =>
      cases h1 : alookup existingEntries p.titleSlug <;>
        by_cases h2 : p.status = some "ac" <;>
        by_cases h3 : p.status = none <;>
        simp_all [TargetedStrategy, EagerStrategy, targetedPartition, eagerPartition,
          List.filter_cons]

-- ─── C7 ─────────────────────────────────────────────────────────────

theorem validateChronoGo_ok_iff (subs : List AcceptedSubmission) :
    ∀ prev : Option Int,
      validateChronoGo prev subs = .ok () ↔
        weaklyDescending (prev.toList ++ subs.map (·.timestamp)) = true := by
  induction subs with
  | nil =>
    intro prev
    cases prev <;> simp [validateChronoGo, weaklyDescending]
  | cons s rest ih =>
    intro prev
    cases prev with
    | none =>
      have h := ih (some s.timestamp)
      simpa [validateChronoGo] using h
    | some p =>
      by_cases h : s.timestamp > p
      · simp [validateChronoGo, h, weaklyDescending, not_le.mpr h]
      · have hih := ih (some s.timestamp)
        simp only [validateChronoGo, if_neg h]
        simp only [Option.toList, List.map_cons, List.cons_append, List.nil_append,
          weaklyDescending] at hih ⊢
        simp [hih, le_of_not_lt (fun hc => h hc)]

theorem except_unit_not_ok (e : Except String Unit) (h : e ≠ .ok ()) :
    ∃ msg, e = .error msg := by
  cases e with
  | error m => exact ⟨m, rfl⟩
  | ok u => cases u; exact absurd rfl h

/-- C7: counterexample.  A feed with two equal adjacent timestamps is
not strictly descending, yet `validateChronologicalOrder` raises no
error — the claim's "exactly when the list is not strictly descending"
is false. -/
theorem chronology_equal_timestamps_pass :
    validateChronologicalOrder [⟨"a", 5⟩, ⟨"b", 5⟩] = .ok () ∧
    strictlyDescending ([⟨"a", 5⟩, ⟨"b", 5⟩].map
      (fun s : AcceptedSubmission => s.timestamp)) = false := by
  exact ⟨rfl, by decide⟩

/-- C7 (amended): the chronology check raises an error exactly when the
timestamp list is not weakly descending (some adjacent pair strictly
increases); equal adjacent timestamps are accepted.  Such a violation
in the recent-accepted feed processed by `incrementalSync` propagates
as an error rather than being absorbed. -/
theorem chronology_error_characterization :
    (∀ subs : List AcceptedSubmission,
      validateChronologicalOrder subs = .ok () ↔
        weaklyDescending (subs.map (·.timestamp)) = true) ∧
    (∀ (username : String) (recent : List AcceptedSubmission)
        (cache : Option SubmissionCacheData) (now : Nat),
      username ≠ "" → recent ≠ [] →
      weaklyDescending (recent.map (·.timestamp)) = false →
      ∃ msg, incrementalSync username recent cache now = .error msg) := by
  constructor
  · intro subs
    simpa using validateChronoGo_ok_iff subs none
  · intro username recent cache now hu hr hwd
    have hne : validateChronologicalOrder recent ≠ .ok () := by
      intro h
      have hok := (validateChronoGo_ok_iff recent none).mp h
      simp only [Option.toList, List.nil_append] at hok
      rw [hok] at hwd
      cases hwd
    obtain ⟨msg, hmsg⟩ := except_unit_not_ok _ hne
    refine ⟨msg, ?_⟩
    have hr0 : ¬ recent.length = 0 := by
      simpa [List.length_eq_zero] using hr
    simp only [incrementalSync, if_neg hu, if_neg hr0, hmsg]

/-- C7: witness for the amended theorem. -/
theorem chronology_error_characterization_witness :
    (validateChronologicalOrder [⟨"a", 3⟩, ⟨"b", 2⟩] = .ok () ↔
      weaklyDescending ([⟨"a", 3⟩, ⟨"b", 2⟩].map
        (fun s : AcceptedSubmission => s.timestamp)) = true) ∧
    ∃ msg, incrementalSync "tester" [⟨"a", 1⟩, ⟨"b", 2⟩] none 0 = .error msg := by
  exact ⟨chronology_error_characterization.1 [⟨"a", 3⟩, ⟨"b", 2⟩],
    chronology_error_characterization.2 "tester" [⟨"a", 1⟩, ⟨"b", 2⟩] none 0
      (by decide) (by decide) (by decide)⟩

-- ─── C6 ─────────────────────────────────────────────────────────────

theorem incrementalLoop_covered (now : Nat) (subs : List AcceptedSubmission)
    (entries : List (String × SubmissionCacheEntry)) (b : Bool) (n : Nat)
    (h : ∀ s ∈ subs, coveredBy entries s = true) :
    (incrementalLoop now subs entries b n).1 = entries ∧
    (incrementalLoop now subs entries b n).2.2 = n := by
  induction subs generalizing b with
  | nil => simp [incrementalLoop]
  | cons s rest ih =>
    have hs := h s (List.mem_cons_self s rest)
    have hrest : ∀ x ∈ rest, coveredBy entries x = true :=
      fun x hx => h x (List.mem_cons_of_mem s hx)
    unfold coveredBy at hs
    cases he : alookup entries s.titleSlug with
    | none => rw [he] at hs; cases hs
    | some e =>
      rw [he] at hs
      have hs' : (e.solved &&
          match e.latestAcceptedTimestamp with
          | some t => decide (s.timestamp ≤ t)
          | none => false) = true := hs
      cases ht : e.latestAcceptedTimestamp with
      | none => rw [ht] at hs'; simp at hs'
      | some t =>
        rw [ht] at hs'
        have hsolved : e.solved = true := (Bool.and_eq_true_iff.mp hs').1
        have hle : s.timestamp ≤ t :=
          of_decide_eq_true (Bool.and_eq_true_iff.mp hs').2
        have hnotgt : ¬ s.timestamp > t := not_lt.mpr hle
        simp only [incrementalLoop, he, hsolved, ht, if_neg hnotgt]
        exact ih true hrest

/-- C6: incremental reconciliation is idempotent — against a cache whose
solved entries already cover every batch identifier with
identical-or-newer stored timestamps, a pass yields `newCount = 0`,
because a stored timestamp is only updated when the incoming one is
strictly newer. -/
theorem incrementalSync_idempotent (username : String)
    (recent : List AcceptedSubmission) (cache : SubmissionCacheData) (now : Nat)
    (hvalid : validateChronologicalOrder recent = .ok ())
    (hcov : recent.all (coveredBy cache.entries) = true) :
    ∃ r, incrementalSync username recent (some cache) now = .ok r ∧
      r.newCount = 0 := by
  by_cases hu : username = ""
  · exact ⟨⟨false, 0, cache⟩, by simp [incrementalSync, hu], rfl⟩
  · by_cases hr : recent.length = 0
    · exact ⟨⟨false, 0, cache⟩, by simp [incrementalSync, hu, hr], rfl⟩
    · have hcov' : ∀ s ∈ recent, coveredBy cache.entries s = true := by
        simpa [List.all_eq_true] using hcov
      have hn := (incrementalLoop_covered now recent cache.entries false 0 hcov').2
      simp only [incrementalSync, if_neg hu, if_neg hr, hvalid]
      exact ⟨_, rfl, hn⟩

/-- C6: witness. -/
theorem incrementalSync_idempotent_witness :
    ∃ r, incrementalSync "tester"
        [⟨"a", 5⟩] (some ⟨[("a", ⟨true, some 5, 0⟩)], .valid, none, none, none⟩) 9 =
        .ok r ∧ r.newCount = 0 :=
  incrementalSync_idempotent "tester" [⟨"a", 5⟩]
    ⟨[("a", ⟨true, some 5, 0⟩)], .valid, none, none, none⟩ 9 rfl (by decide)

-- ─── C4 ─────────────────────────────────────────────────────────────

theorem firstAccepted_append (l1 l2 : List PageSubmission) :
    firstAccepted (l1 ++ l2) =
      match firstAccepted l1 with
      | some ts => some ts
      | none => firstAccepted l2 := by
  induction l1 with
  | nil => simp [firstAccepted]
  | cons s rest ih =>
    by_cases h : s.statusDisplay = "Accepted" <;>
      simp [firstAccepted, h, ih]

theorem fetchLatestGo_window (pages : Nat → Option SubmissionPage) :
    ∀ (fuel page : Nat),
      fetchLatestGo pages page fuel =
        match firstAccepted (submissionWindow pages page fuel) with
        | some ts => ⟨true, some ts⟩
        | none => ⟨false, none⟩ := by
  intro fuel
  induction fuel with
  | zero => intro page; simp [fetchLatestGo, submissionWindow, firstAccepted]
  | succ n ih =>
    intro page
    cases hp : pages page with
    | none => simp [fetchLatestGo, submissionWindow, hp, firstAccepted]
    | some qsl =>
      by_cases hempty : qsl.submissions.isEmpty
      · simp [fetchLatestGo, submissionWindow, hp, hempty, firstAccepted]
      · by_cases hnext : qsl.hasNext = true
        · cases hfa : firstAccepted qsl.submissions with
          | some ts =>
            simp [fetchLatestGo, submissionWindow, hp, hempty, hnext, hfa,
              firstAccepted_append]
          | none =>
            simp [fetchLatestGo, submissionWindow, hp, hempty, hnext, hfa,
              firstAccepted_append, ih]
        · simp [fetchLatestGo, submissionWindow, hp, hempty, hnext]

/-- C4: the per-item lookup returns `solved:true` with the timestamp of
the first (most recent) accepted entry in the most-recent-first
paginated window it scans (bounded by `maxPages`), and
`{solved:false, latestAcceptedTimestamp:null}` when no accepted entry
is in that window or the item has no submissions at all; in
particular, a history `[Wrong Answer@200, Accepted@100]` yields
`solved:true` with timestamp 100. -/
theorem fetchLatestAcceptedForProblem_spec :
    (∀ (pages : Nat → Option SubmissionPage) (maxPages : Nat),
      fetchLatestAcceptedForProblem pages maxPages =
        match firstAccepted (submissionWindow pages 0 maxPages) with
        | some ts => ⟨true, some ts⟩
        | none => ⟨false, none⟩) ∧
    fetchLatestAcceptedForProblem historyWrongThenAccepted 3 = ⟨true, some 100⟩ ∧
    fetchLatestAcceptedForProblem historyAllRejected 3 = ⟨false, none⟩ ∧
    fetchLatestAcceptedForProblem historyNoSubmissions 3 = ⟨false, none⟩ := by
  refine ⟨fun pages maxPages => ?_, by decide, by decide, by decide⟩
  exact fetchLatestGo_window pages maxPages 0

-- ─── Builder lemmas (C2, C3, C10) ───────────────────────────────────

theorem scanLoop_none_fst (fetchResult : String → Except String ProblemSolveResult)
    (now : Nat) (base : SubmissionCacheData) (ps : List Problem) :
    ∀ (i : Nat) (entries : List (String × SubmissionCacheEntry))
      (w : List SubmissionCacheData),
      (scanLoop fetchResult none now base ps i entries w).1 =
        ps.foldl (fun m p => aset m p.titleSlug (scanEntry fetchResult now p))
          entries := by
  induction ps with
  | nil => intro i entries w; simp [scanLoop]
  | cons p rest ih =>
    intro i entries w
    simp only [scanLoop, abortedAt, Bool.false_eq_true, if_false, List.foldl_cons]
    exact ih (i + 1) _ _

theorem foldl_aset_alookup_not_mem
    (f : Problem → SubmissionCacheEntry) (ps : List Problem) (s : String)
    (hs : s ∉ ps.map (·.titleSlug)) :
    ∀ entries : List (String × SubmissionCacheEntry),
      alookup (ps.foldl (fun m p => aset m p.titleSlug (f p)) entries) s =
        alookup entries s := by
  induction ps with
  | nil => intro entries; rfl
  | cons p rest ih =>
    intro entries
    simp only [List.map_cons, List.mem_cons, not_or] at hs
    simp only [List.foldl_cons]
    rw [ih hs.2, alookup_aset, if_neg (fun h => hs.1 h.symm)]

theorem foldl_aset_alookup_isSome
    (f : Problem → SubmissionCacheEntry) (ps : List Problem) (s : String) :
    ∀ entries : List (String × SubmissionCacheEntry),
      (alookup entries s).isSome = true →
      (alookup (ps.foldl (fun m p => aset m p.titleSlug (f p)) entries) s).isSome
        = true := by
  induction ps with
  | nil => intro entries h; exact h
  | cons p rest ih =>
    intro entries h
    simp only [List.foldl_cons]
    refine ih _ ?_
    rw [alookup_aset]
    by_cases hps : p.titleSlug = s <;> simp [hps, h]

theorem foldl_aset_alookup_mem_isSome
    (f : Problem → SubmissionCacheEntry) (ps : List Problem) (p : Problem)
    (hp : p ∈ ps) :
    ∀ entries : List (String × SubmissionCacheEntry),
      (alookup (ps.foldl (fun m q => aset m q.titleSlug (f q)) entries)
        p.titleSlug).isSome = true := by
  induction ps with
  | nil => cases hp
  | cons q rest ih =>
    intro entries
    simp only [List.foldl_cons]
    rcases List.mem_cons.mp hp with h | h
    · subst h
      exact foldl_aset_alookup_isSome f rest p.titleSlug _
        (by rw [alookup_aset, if_pos rfl]; rfl)
    · exact ih h _

theorem foldl_aset_alookup_nodup
    (f : Problem → SubmissionCacheEntry) (ps : List Problem) (p : Problem)
    (hp : p ∈ ps) (hnodup : (ps.map (·.titleSlug)).Nodup) :
    ∀ entries : List (String × SubmissionCacheEntry),
      alookup (ps.foldl (fun m q => aset m q.titleSlug (f q)) entries)
        p.titleSlug = some (f p) := by
  induction ps with
  | nil => cases hp
  | cons q rest ih =>
    intro entries
    simp only [List.map_cons, List.nodup_cons] at hnodup
    simp only [List.foldl_cons]
    rcases List.mem_cons.mp hp with h | h
    · subst h
      rw [foldl_aset_alookup_not_mem f rest p.titleSlug hnodup.1,
        alookup_aset, if_pos rfl]
    · exact ih h hnodup.2 _

theorem scanLoop_abort_take (fetchResult : String → Except String ProblemSolveResult)
    (now : Nat) (base : SubmissionCacheData) (k : Nat) (ps : List Problem) :
    ∀ (i : Nat) (entries : List (String × SubmissionCacheEntry))
      (w : List SubmissionCacheData), i ≤ k →
      scanLoop fetchResult (some k) now base ps i entries w =
        scanLoop fetchResult none now base (ps.take (k - i)) i entries w := by
  induction ps with
  | nil => intro i entries w _; simp [scanLoop]
  | cons p rest ih =>
    intro i entries w hik
    by_cases h : k ≤ i
    · have hki : k = i := le_antisymm h hik
      subst hki
      simp [scanLoop, abortedAt]
    · have hlt : i < k := lt_of_not_le h
      have htake : k - i = (k - (i + 1)) + 1 := by omega
      rw [htake]
      have hni : abortedAt (some k) i = false := by
        simp [abortedAt]
        omega
      have hnone : abortedAt none i = false := rfl
      simp only [List.take_succ_cons, scanLoop, hni, hnone, Bool.false_eq_true,
        if_false]
      exact ih (i + 1) _ _ hlt

theorem getLast?_append_singleton {α : Type} (l : List α) (a : α) :
    (l ++ [a]).getLast? = some a := by
  induction l with
  | nil => rfl
  | cons x xs ih =>
    cases hxs : xs ++ [a] with
    | nil => simp at hxs
    | cons y ys =>
      rw [List.cons_append, hxs, List.getLast?_cons_cons, ← hxs, ih]

theorem buildSubmissionCache_main_eq (problems : List Problem)
    (strategy : ScanStrategy) (existingCache : SubmissionCacheData)
    (fetchResult : String → Except String ProblemSolveResult)
    (abortAt : Option Nat) (now : Nat)
    (hq : (strategy.partition problems existingCache.entries).toQuery ≠ []) :
    buildSubmissionCache problems strategy existingCache fetchResult abortAt now =
      (let part := strategy.partition problems existingCache.entries
       let entries1 := part.toMarkUnsolved.foldl
         (fun m p => aset m p.titleSlug ⟨false, none, now⟩) existingCache.entries
       let base : SubmissionCacheData :=
         ⟨entries1, .building, existingCache.lastFullScanAt,
          existingCache.lastIncrementalAt, none⟩
       let scanned := scanLoop fetchResult abortAt now base part.toQuery 0 entries1 []
       let finalAborted := abortedAt abortAt part.toQuery.length
       let completedCache : SubmissionCacheData :=
         ⟨scanned.1,
          if finalAborted then existingCache.cacheStatus else .valid,
          if finalAborted then existingCache.lastFullScanAt else some now,
          existingCache.lastIncrementalAt, none⟩
       ⟨completedCache, base :: scanned.2 ++ [completedCache]⟩) := by
  have h1 : (strategy.partition problems existingCache.entries).toQuery.isEmpty
      = false := by
    simpa [List.isEmpty_iff] using hq
  simp [buildSubmissionCache, h1]

-- ─── C2 ─────────────────────────────────────────────────────────────

/-- C2: a failed per-item lookup never aborts the scan — the failing
item is written as `{solved:false, latestAcceptedTimestamp:null,
checkedAt:now}`, every item of `toQuery` still ends up with an entry,
and an uncancelled run completes with status `valid`. -/
theorem buildSubmissionCache_isolates_failures (problems : List Problem)
    (strategy : ScanStrategy) (existingCache : SubmissionCacheData)
    (fetchResult : String → Except String ProblemSolveResult) (now : Nat)
    (p : Problem) (e : String)
    (hmem : p ∈ (strategy.partition problems existingCache.entries).toQuery)
    (hfail : fetchResult p.titleSlug = .error e)
    (hnodup : ((strategy.partition problems existingCache.entries).toQuery.map
      (·.titleSlug)).Nodup) :
    alookup (buildSubmissionCache problems strategy existingCache fetchResult
        none now).cache.entries p.titleSlug = some ⟨false, none, now⟩ ∧
    (∀ q ∈ (strategy.partition problems existingCache.entries).toQuery,
      (alookup (buildSubmissionCache problems strategy existingCache fetchResult
          none now).cache.entries q.titleSlug).isSome = true) ∧
    (buildSubmissionCache problems strategy existingCache fetchResult
        none now).cache.cacheStatus = .valid := by
  have hq : (strategy.partition problems existingCache.entries).toQuery ≠ [] :=
    List.ne_nil_of_mem hmem
  rw [buildSubmissionCache_main_eq problems strategy existingCache fetchResult
    none now hq]
  simp only [scanLoop_none_fst]
  refine ⟨?_, ?_, ?_⟩
  · rw [foldl_aset_alookup_nodup (scanEntry fetchResult now) _ p hmem hnodup]
    simp [scanEntry, hfail]
  · intro q hqmem
    exact foldl_aset_alookup_mem_isSome (scanEntry fetchResult now) _ q hqmem _
  · simp [abortedAt]

/-- C2: witness. -/
theorem buildSubmissionCache_isolates_failures_witness :
    alookup (buildSubmissionCache [⟨50, "Easy", false, some "ac", "p1", []⟩]
        TargetedStrategy makeEmptyCache (fun _ => .error "boom")
        none 7).cache.entries "p1" = some ⟨false, none, 7⟩ ∧
    (∀ q ∈ (TargetedStrategy.partition [⟨50, "Easy", false, some "ac", "p1", []⟩]
        makeEmptyCache.entries).toQuery,
      (alookup (buildSubmissionCache [⟨50, "Easy", false, some "ac", "p1", []⟩]
          TargetedStrategy makeEmptyCache (fun _ => .error "boom")
          none 7).cache.entries q.titleSlug).isSome = true) ∧
    (buildSubmissionCache [⟨50, "Easy", false, some "ac", "p1", []⟩]
        TargetedStrategy makeEmptyCache (fun _ => .error "boom")
        none 7).cache.cacheStatus = .valid :=
  buildSubmissionCache_isolates_failures
    [⟨50, "Easy", false, some "ac", "p1", []⟩] TargetedStrategy makeEmptyCache
    (fun _ => .error "boom") 7 ⟨50, "Easy", false, some "ac", "p1", []⟩ "boom"
    (by decide) rfl (by decide)

-- ─── C3 ─────────────────────────────────────────────────────────────

/-- C3: when cancellation is observed between items (before item `k` of
`toQuery`), the builder stops early, the persisted final write is the
returned cache, that cache contains exactly the entries accumulated
from `toMarkUnsolved` and the first `k` queried items, and both the
cache status and `lastFullScanAt` are unchanged from before the scan. -/
theorem buildSubmissionCache_abort_frame (problems : List Problem)
    (strategy : ScanStrategy) (existingCache : SubmissionCacheData)
    (fetchResult : String → Except String ProblemSolveResult) (now k : Nat)
    (habort : k < (strategy.partition problems existingCache.entries).toQuery.length) :
    (buildSubmissionCache problems strategy existingCache fetchResult
        (some k) now).cache.cacheStatus = existingCache.cacheStatus ∧
    (buildSubmissionCache problems strategy existingCache fetchResult
        (some k) now).cache.lastFullScanAt = existingCache.lastFullScanAt ∧
    (buildSubmissionCache problems strategy existingCache fetchResult
        (some k) now).cache.entries =
      ((strategy.partition problems existingCache.entries).toQuery.take k).foldl
        (fun m p => aset m p.titleSlug (scanEntry fetchResult now p))
        ((strategy.partition problems existingCache.entries).toMarkUnsolved.foldl
          (fun m p => aset m p.titleSlug ⟨false, none, now⟩)
          existingCache.entries) ∧
    (buildSubmissionCache problems strategy existingCache fetchResult
        (some k) now).writes.getLast? =
      some (buildSubmissionCache problems strategy existingCache fetchResult
        (some k) now).cache := by
  have hq : (strategy.partition problems existingCache.entries).toQuery ≠ [] := by
    intro h
    rw [h] at habort
    simp at habort
  rw [buildSubmissionCache_main_eq problems strategy existingCache fetchResult
    (some k) now hq]
  have hfa : abortedAt (some k)
      (strategy.partition problems existingCache.entries).toQuery.length = true := by
    simp [abortedAt]
    omega
  have hentries : (scanLoop fetchResult (some k) now
      ⟨(strategy.partition problems existingCache.entries).toMarkUnsolved.foldl
          (fun m p => aset m p.titleSlug ⟨false, none, now⟩) existingCache.entries,
        .building, existingCache.lastFullScanAt, existingCache.lastIncrementalAt,
        none⟩
      (strategy.partition problems existingCache.entries).toQuery 0
      ((strategy.partition problems existingCache.entries).toMarkUnsolved.foldl
        (fun m p => aset m p.titleSlug ⟨false, none, now⟩) existingCache.entries)
      []).1 =
      ((strategy.partition problems existingCache.entries).toQuery.take k).foldl
        (fun m p => aset m p.titleSlug (scanEntry fetchResult now p))
        ((strategy.partition problems existingCache.entries).toMarkUnsolved.foldl
          (fun m p => aset m p.titleSlug ⟨false, none, now⟩)
          existingCache.entries) := by
    rw [scanLoop_abort_take fetchResult now _ k _ 0 _ [] (Nat.zero_le k)]
    rw [scanLoop_none_fst]
    simp
  refine ⟨by simp [hfa], by simp [hfa], by simpa using hentries, ?_⟩
  simp only [← List.cons_append, getLast?_append_singleton]

/-- C3: witness. -/
theorem buildSubmissionCache_abort_frame_witness :
    (buildSubmissionCache [⟨50, "Easy", false, some "ac", "p1", []⟩]
        TargetedStrategy makeEmptyCache (fun _ => .ok ⟨true, some 3⟩)
        (some 0) 7).cache.cacheStatus = makeEmptyCache.cacheStatus ∧
    (buildSubmissionCache [⟨50, "Easy", false, some "ac", "p1", []⟩]
        TargetedStrategy makeEmptyCache (fun _ => .ok ⟨true, some 3⟩)
        (some 0) 7).cache.lastFullScanAt = makeEmptyCache.lastFullScanAt ∧
    (buildSubmissionCache [⟨50, "Easy", false, some "ac", "p1", []⟩]
        TargetedStrategy makeEmptyCache (fun _ => .ok ⟨true, some 3⟩)
        (some 0) 7).cache.entries =
      ((TargetedStrategy.partition [⟨50, "Easy", false, some "ac", "p1", []⟩]
          makeEmptyCache.entries).toQuery.take 0).foldl
        (fun m p => aset m p.titleSlug
          (scanEntry (fun _ => .ok ⟨true, some 3⟩) 7 p))
        ((TargetedStrategy.partition [⟨50, "Easy", false, some "ac", "p1", []⟩]
          makeEmptyCache.entries).toMarkUnsolved.foldl
          (fun m p => aset m p.titleSlug ⟨false, none, 7⟩)
          makeEmptyCache.entries) ∧
    (buildSubmissionCache [⟨50, "Easy", false, some "ac", "p1", []⟩]
        TargetedStrategy makeEmptyCache (fun _ => .ok ⟨true, some 3⟩)
        (some 0) 7).writes.getLast? =
      some (buildSubmissionCache [⟨50, "Easy", false, some "ac", "p1", []⟩]
        TargetedStrategy makeEmptyCache (fun _ => .ok ⟨true, some 3⟩)
        (some 0) 7).cache :=
  buildSubmissionCache_abort_frame [⟨50, "Easy", false, some "ac", "p1", []⟩]
    TargetedStrategy makeEmptyCache (fun _ => .ok ⟨true, some 3⟩) 7 0 (by decide)

-- ─── C10 ────────────────────────────────────────────────────────────

/-- C10: when the partition yields nothing at all, the builder returns
the existing cache stamped `valid` with a fresh `lastFullScanAt`
without performing any storage write (so the durably persisted cache
keeps its previous status and entries); on every other completing
path the final storage write is the returned cache. -/
theorem buildSubmissionCache_empty_partition_no_write (problems : List Problem)
    (strategy : ScanStrategy) (existingCache : SubmissionCacheData)
    (fetchResult : String → Except String ProblemSolveResult)
    (abortAt : Option Nat) (now : Nat) :
    ((strategy.partition problems existingCache.entries).toQuery = [] ∧
      (strategy.partition problems existingCache.entries).toMarkUnsolved = [] →
      (buildSubmissionCache problems strategy existingCache fetchResult
        abortAt now).writes = [] ∧
      (buildSubmissionCache problems strategy existingCache fetchResult
        abortAt now).cache =
        { existingCache with
            cacheStatus := .valid
            lastFullScanAt := some now
            lastError := none }) ∧
    ((strategy.partition problems existingCache.entries).toQuery ≠ [] ∨
      (strategy.partition problems existingCache.entries).toMarkUnsolved ≠ [] →
      (buildSubmissionCache problems strategy existingCache fetchResult
        abortAt now).writes ≠ [] ∧
      (buildSubmissionCache problems strategy existingCache fetchResult
        abortAt now).writes.getLast? =
        some (buildSubmissionCache problems strategy existingCache fetchResult
          abortAt now).cache) := by
  constructor
  · rintro ⟨h1, h2⟩
    constructor <;> simp [buildSubmissionCache, h1, h2]
  · intro h
    by_cases hq : (strategy.partition problems existingCache.entries).toQuery = []
    · have hm : (strategy.partition problems
          existingCache.entries).toMarkUnsolved ≠ [] := by
        rcases h with h | h
        · exact absurd hq h
        · exact h
      have hm' : (strategy.partition problems
          existingCache.entries).toMarkUnsolved.isEmpty = false := by
        simpa [List.isEmpty_iff] using hm
      constructor <;> simp [buildSubmissionCache, hq, hm']
    · rw [buildSubmissionCache_main_eq problems strategy existingCache fetchResult
        abortAt now hq]
      constructor
      · simp
      · simp only [← List.cons_append, getLast?_append_singleton]

/-- C10: witness. -/
theorem buildSubmissionCache_empty_partition_no_write_witness :
    ((buildSubmissionCache ([] : List Problem) TargetedStrategy
        ⟨[("a", ⟨true, some 5, 0⟩)], .stale, some 3, none, none⟩
        (fun _ => .error "x") none 7).writes = [] ∧
      (buildSubmissionCache ([] : List Problem) TargetedStrategy
        ⟨[("a", ⟨true, some 5, 0⟩)], .stale, some 3, none, none⟩
        (fun _ => .error "x") none 7).cache =
        { (⟨[("a", ⟨true, some 5, 0⟩)], .stale, some 3, none, none⟩ :
            SubmissionCacheData) with
            cacheStatus := .valid
            lastFullScanAt := some 7
            lastError := none }) ∧
    ((buildSubmissionCache [⟨50, "Easy", false, some "ac", "p1", []⟩]
        TargetedStrategy makeEmptyCache (fun _ => .error "x") none 7).writes ≠ [] ∧
      (buildSubmissionCache [⟨50, "Easy", false, some "ac", "p1", []⟩]
        TargetedStrategy makeEmptyCache (fun _ => .error "x") none 7).writes.getLast?
        = some (buildSubmissionCache [⟨50, "Easy", false, some "ac", "p1", []⟩]
          TargetedStrategy makeEmptyCache (fun _ => .error "x") none 7).cache) :=
  ⟨(buildSubmissionCache_empty_partition_no_write [] TargetedStrategy
      ⟨[("a", ⟨true, some 5, 0⟩)], .stale, some 3, none, none⟩
      (fun _ => .error "x") none 7).1 (by exact ⟨rfl, rfl⟩),
   (buildSubmissionCache_empty_partition_no_write
      [⟨50, "Easy", false, some "ac", "p1", []⟩] TargetedStrategy makeEmptyCache
      (fun _ => .error "x") none 7).2 (Or.inl (by decide))⟩

-- ─── C9 ─────────────────────────────────────────────────────────────

/-- C9: when the remote fetch fails, the catalog refresh returns a
result object carrying the error and `usingCache:true` instead of
throwing, and the persisted state keeps the previously cached problem
list, records the error message and the using-cached-data flag, and
does not clear `fetchCompletedAt`. -/
theorem updateProblemsFromLeetCode_failure_path (existing : Option ProblemData)
    (fetchTtlMs : Int) (now completedAt : Nat) (msg : String)
    (httl : ttlStillValid existing fetchTtlMs now = false) :
    (updateProblemsFromLeetCode false existing fetchTtlMs now completedAt
      (.error msg)).1 = ⟨false, none, some msg, some true⟩ ∧
    ∃ final,
      (updateProblemsFromLeetCode false existing fetchTtlMs now completedAt
        (.error msg)).2.getLast? = some final ∧
      final.data = some ((existing.bind (·.data)).getD emptyCatalog) ∧
      final.fetchCompletedAt = (existing.getD emptyProblemData).fetchCompletedAt ∧
      final.lastError = some msg ∧
      final.usingCache = some true := by
  constructor
  · simp [updateProblemsFromLeetCode, httl]
  · refine ⟨{ existing.getD emptyProblemData with
        data := some ((existing.bind (·.data)).getD emptyCatalog)
        fetchStartedAt := some 0
        lastAttemptAt := some now
        lastError := some msg
        timeStamp := some now
        usingCache := some true }, ?_, ?_, ?_, ?_, ?_⟩ <;>
      simp [updateProblemsFromLeetCode, httl]

/-- C9: witness. -/
theorem updateProblemsFromLeetCode_failure_path_witness :
    (updateProblemsFromLeetCode false
      (some ⟨some ⟨2, []⟩, some "leetcode", some 5, some 7, some 5, none, some 7,
        some false⟩) 0 100 101 (.error "boom")).1 =
      ⟨false, none, some "boom", some true⟩ ∧
    ∃ final,
      (updateProblemsFromLeetCode false
        (some ⟨some ⟨2, []⟩, some "leetcode", some 5, some 7, some 5, none, some 7,
          some false⟩) 0 100 101 (.error "boom")).2.getLast? = some final ∧
      final.data = some (((some (⟨some ⟨2, []⟩, some "leetcode", some 5, some 7,
          some 5, none, some 7, some false⟩ : ProblemData)).bind
        (·.data)).getD emptyCatalog) ∧
      final.fetchCompletedAt =
        ((some (⟨some ⟨2, []⟩, some "leetcode", some 5, some 7, some 5, none,
          some 7, some false⟩ : ProblemData)).getD
          emptyProblemData).fetchCompletedAt ∧
      final.lastError = some "boom" ∧
      final.usingCache = some true :=
  updateProblemsFromLeetCode_failure_path
    (some ⟨some ⟨2, []⟩, some "leetcode", some 5, some 7, some 5, none, some 7,
      some false⟩) 0 100 101 "boom" (by decide)

-- ─── Readiness lemmas (C8) ──────────────────────────────────────────

theorem buildAcceptedSet_contains (cache : Option SubmissionCacheData)
    (dr : Option DateRange) (slug : String) :
    (buildAcceptedSet cache dr).contains slug = specIsAccepted cache dr slug := by
  cases cache with
  | none => rfl
  | some c =>
    rw [Bool.eq_iff_iff]
    simp only [buildAcceptedSet, specIsAccepted, List.contains, List.elem_iff,
      List.mem_filterMap, List.any_eq_true]
    constructor
    · rintro ⟨pr, hpr, hf⟩
      refine ⟨pr, hpr, ?_⟩
      by_cases hsolved : pr.2.solved
      · cases dr with
        | none =>
          simp only [hsolved, Bool.not_true, if_false] at hf ⊢
          simp_all
        | some r =>
          cases ht : pr.2.latestAcceptedTimestamp with
          | none => simp [hsolved, ht] at hf
          | some t =>
            by_cases hout : t < r.startSec ∨ t > r.endSec
            · simp [hsolved, ht, hout] at hf
            · push_neg at hout
              have h1 : ¬ t < r.startSec := not_lt.mpr hout.1
              have h2 : ¬ t > r.endSec := not_lt.mpr hout.2
              simp [hsolved, ht, h1, h2] at hf
              simp [hsolved, ht, hout.1, hout.2, hf]
      · simp [hsolved] at hf
    · rintro ⟨pr, hpr, hg⟩
      refine ⟨pr, hpr, ?_⟩
      simp only [Bool.and_eq_true, beq_iff_eq] at hg
      obtain ⟨⟨hslug, hsolved⟩, hrange⟩ := hg
      cases dr with
      | none => simp [hsolved, hslug]
      | some r =>
        cases ht : pr.2.latestAcceptedTimestamp with
        | none => rw [ht] at hrange; simp at hrange
        | some t =>
          rw [ht] at hrange
          simp only [Bool.and_eq_true, decide_eq_true_eq] at hrange
          simp [hsolved, ht, not_lt.mpr hrange.1, not_lt.mpr hrange.2, hslug]

theorem alookup_entries_isSome_eq_specHasEntry (cache : Option SubmissionCacheData)
    (slug : String) :
    (alookup ((cache.map (·.entries)).getD []) slug).isSome =
      specHasEntry cache slug := by
  cases cache with
  | none => rfl
  | some c => simpa [specHasEntry] using alookup_isSome_eq_any c.entries slug

theorem isSolved_eq_spec (cache : Option SubmissionCacheData)
    (dr : Option DateRange) (q : Problem) :
    isSolved q.titleSlug q.status (buildAcceptedSet cache dr) dr.isNone
      ((cache.map (·.entries)).getD []) = specIsSolved cache dr q := by
  unfold isSolved specIsSolved
  rw [buildAcceptedSet_contains, alookup_entries_isSome_eq_specHasEntry]

theorem solvedPoints_eq_specPoints (q : Problem) :
    solvedPoints q = specPoints q := rfl

theorem addTagPoints_apply (pts : ℚ) (tags : List TopicTag) :
    ∀ (acc : String → ℚ) (t : String),
      addTagPoints pts tags acc t =
        acc t + pts * (tags.countP (fun tag => tag.slug == t) : ℚ) := by
  induction tags with
  | nil => intro acc t; simp [addTagPoints]
  | cons tag rest ih =>
    intro acc t
    rw [List.countP_cons]
    simp only [addTagPoints]
    rw [ih]
    by_cases h : t = tag.slug
    · subst h
      simp only [if_pos rfl, beq_self_eq_true, if_pos]
      push_cast
      ring
    · have h' : ¬ (tag.slug == t) = true := by
        simp [beq_iff_eq]
        exact fun hc => h hc.symm
      simp only [if_neg h, if_neg h']
      push_cast
      ring

theorem topicPointsFold_apply (accepted : List String) (allowFb : Bool)
    (entries : List (String × SubmissionCacheEntry)) (qs : List Problem) :
    ∀ (acc : String → ℚ) (t : String),
      topicPointsFold accepted allowFb entries qs acc t =
        acc t +
          ((qs.filter (fun q =>
              isSolved q.titleSlug q.status accepted allowFb entries)).map
            (fun q => solvedPoints q *
              (q.topicTags.countP (fun tag => tag.slug == t) : ℚ))).sum := by
  induction qs with
  | nil => intro acc t; simp [topicPointsFold]
  | cons q rest ih =>
    intro acc t
    simp only [topicPointsFold, List.filter_cons]
    by_cases hs : isSolved q.titleSlug q.status accepted allowFb entries = true
    · rw [if_pos hs, if_pos hs, ih, addTagPoints_apply]
      simp only [List.map_cons, List.sum_cons]
      ring
    · rw [if_neg hs, if_neg hs, ih]

theorem countP_slug_of_nodup (t : String) (l : List TopicTag)
    (h : (l.map (·.slug)).Nodup) :
    l.countP (fun tag => tag.slug == t) =
      if l.any (fun tag => tag.slug == t) then 1 else 0 := by
  induction l with
  | nil => rfl
  | cons tag rest ih =>
    simp only [List.map_cons, List.nodup_cons] at h
    rw [List.countP_cons, List.any_cons]
    by_cases heq : (tag.slug == t) = true
    · have hteq : tag.slug = t := by simpa [beq_iff_eq] using heq
      have hzero : rest.countP (fun x => x.slug == t) = 0 := by
        rw [List.countP_eq_zero]
        intro x hx hxt
        apply h.1
        rw [List.mem_map]
        refine ⟨x, hx, ?_⟩
        rw [hteq]
        simpa [beq_iff_eq] using hxt
      simp [heq, hzero]
    · simp [heq, ih h.2]

theorem sum_points_filter_ite (p b : Problem → Bool) (f : Problem → ℚ)
    (qs : List Problem) :
    ((qs.filter p).map (fun q => f q * (if b q then (1 : ℚ) else 0))).sum =
      ((qs.filter (fun q => p q && b q)).map f).sum := by
  induction qs with
  | nil => rfl
  | cons q rest ih =>
    simp only [List.filter_cons]
    simp only [mul_ite, mul_one, mul_zero] at ih ⊢
    by_cases hp : p q = true <;> by_cases hb : b q = true <;>
      simp [hp, hb, ih]

theorem topicPoints_eq_spec (allProblems : CatalogPayload)
    (cache : Option SubmissionCacheData) (dr : Option DateRange) (t : String)
    (hnodup : ∀ q ∈ allProblems.questions, (q.topicTags.map (·.slug)).Nodup) :
    topicPointsFold (buildAcceptedSet cache dr) dr.isNone
      ((cache.map (·.entries)).getD []) allProblems.questions (fun _ => 0) t =
      specTopicPoints allProblems cache dr t := by
  rw [topicPointsFold_apply]
  simp only [zero_add]
  rw [List.filter_congr (fun q _ => isSolved_eq_spec cache dr q)]
  rw [List.map_congr_left (g := fun q =>
    solvedPoints q * (if q.topicTags.any (fun tag => tag.slug == t) then (1 : ℚ)
      else 0))]
  · rw [sum_points_filter_ite]
    rfl
  · intro q hq
    have hqmem : q ∈ allProblems.questions := (List.mem_filter.mp hq).1
    rw [countP_slug_of_nodup t q.topicTags (hnodup q hqmem)]
    by_cases hb : q.topicTags.any (fun tag => tag.slug == t) = true <;>
      simp [hb]

/-- C8: `getReadinessData` coincides with the reference definition
built from the spec's words: solved = cache-derived accepted set with
the date-range rules, with catalog-status fallback only when no range
is active and no entry exists; points Easy 0.4 / Hard 2.0 / Medium
0.75, 1.0, 1.5 by acceptance-rate band; per tracked topic
`percentage = 100 * totalPoints / targetCount` with ready iff
`normalized >= 1.0`, almost iff `> 0.7`, else notReady; and every
tracked topic appears in the result. -/
theorem getReadinessData_eq_spec (allProblems : CatalogPayload)
    (cache : Option SubmissionCacheData) (dr : Option DateRange)
    (hnodup : ∀ q ∈ allProblems.questions, (q.topicTags.map (·.slug)).Nodup) :
    getReadinessData allProblems cache dr =
      getReadinessSpec allProblems cache dr ∧
    (getReadinessData allProblems cache dr).map (·.1) = TARGET_TOPICS := by
  constructor
  · simp only [getReadinessData, getReadinessSpec]
    refine List.map_congr_left ?_
    intro topic _
    have hp := topicPoints_eq_spec allProblems cache dr topic hnodup
    rw [hp]
    simp [ge_iff_le, gt_iff_lt, mul_comm]
  · simp only [getReadinessData, List.map_map]
    conv_rhs => rw [← List.map_id TARGET_TOPICS]
    exact List.map_congr_left (fun a _ => rfl)

/-- C8: witness. -/
theorem getReadinessData_eq_spec_witness :
    getReadinessData ⟨1, [⟨50, "Easy", false, some "ac", "p1",
        [⟨"Array", "1", "array"⟩]⟩]⟩ none none =
      getReadinessSpec ⟨1, [⟨50, "Easy", false, some "ac", "p1",
        [⟨"Array", "1", "array"⟩]⟩]⟩ none none ∧
    (getReadinessData ⟨1, [⟨50, "Easy", false, some "ac", "p1",
        [⟨"Array", "1", "array"⟩]⟩]⟩ none none).map (·.1) = TARGET_TOPICS :=
  getReadinessData_eq_spec
    ⟨1, [⟨50, "Easy", false, some "ac", "p1", [⟨"Array", "1", "array"⟩]⟩]⟩
    none none (by decide)
